import Mathlib

/-!
# Verification of the pion/logging leveled logging library

A shallow embedding of the pion logging library (level model, environment
driven factory configuration, the JSON leveled logger built on Go's
`log/slog` JSON handler, and the text `StringFormatter` emitter), together
with theorems settling the specification claims.

Go machine integers are modelled as `Int` (levels are small enumeration
constants, never near overflow).  Go maps are modelled as association
lists where insertion conses to the front and lookup takes the first
match, which reproduces Go's overwrite-on-assign semantics.  `fmt.Sprintf`
is an external formatter and is taken as an explicit function parameter.
-/

namespace PionLogging

/-! ## LogLevel (logging.go)

`type LogLevel int32`, with the six enumeration constants produced by
`iota`.  Comparison is ordinary integer comparison. -/

abbrev LogLevel := Int

def LogLevelDisabled : LogLevel := 0

def LogLevelError : LogLevel := 1

def LogLevelWarn : LogLevel := 2

def LogLevelInfo : LogLevel := 3

def LogLevelDebug : LogLevel := 4

def LogLevelTrace : LogLevel := 5

/-- `LogLevel.String` from logging.go: canonical name, `"UNKNOWN"` for any
other value. -/
def logLevelString (ll : LogLevel) : String :=
  if ll = LogLevelDisabled then "Disabled"
  else if ll = LogLevelError then "Error"
  else if ll = LogLevelWarn then "Warn"
  else if ll = LogLevelInfo then "Info"
  else if ll = LogLevelDebug then "Debug"
  else if ll = LogLevelTrace then "Trace"
  else "UNKNOWN"

/-! ## slog levels (Go `log/slog`)

`slog.Level` is an integer; the library uses `-8` for trace and the
standard `LevelDebug = -4`, `LevelInfo = 0`, `LevelWarn = 4`,
`LevelError = 8`. -/

abbrev SlogLevel := Int

def slogLevelTrace : SlogLevel := -8

def slogLevelDebug : SlogLevel := -4

def slogLevelInfo : SlogLevel := 0

def slogLevelWarn : SlogLevel := 4

def slogLevelError : SlogLevel := 8

/-- `slogLevelToSlogStringValue` from json_logger.go: the exact strings the
JSON handler is told to print for the record's `level` key. -/
def slogLevelToSlogStringValue (level : SlogLevel) : String :=
  if level = slogLevelTrace then "TRACE"
  else if level = slogLevelDebug then "DEBUG"
  else if level = slogLevelInfo then "INFO"
  else if level = slogLevelWarn then "WARN"
  else if level = slogLevelError then "ERROR"
  else "UNKNOWN"

/-- `logLevelToPionLevel` from json_logger.go: converts slog record levels
to pion levels; anything unrecognized maps to `LogLevelDisabled`. -/
def logLevelToPionLevel (level : SlogLevel) : LogLevel :=
  if level = slogLevelTrace then LogLevelTrace
  else if level = slogLevelDebug then LogLevelDebug
  else if level = slogLevelInfo then LogLevelInfo
  else if level = slogLevelWarn then LogLevelWarn
  else if level = slogLevelError then LogLevelError
  else LogLevelDisabled

/-! ## Request levels

The five named request levels of the leveled-logger contract.  Each
dispatches to one pair of operations (`Trace`/`Tracef`, ...); the
dispatcher below calls exactly the operation the source defines for it. -/

inductive ReqLevel where
  | trace
  | debug
  | info
  | warn
  | error
  deriving DecidableEq, Repr

/-- The slog level each request operation passes to `logf` in
json_logger.go (`Trace` passes `slog.Level(-8)`, `Debug` passes
`slog.LevelDebug`, ...). -/
def ReqLevel.toSlog : ReqLevel → SlogLevel
  | .trace => slogLevelTrace
  | .debug => slogLevelDebug
  | .info => slogLevelInfo
  | .warn => slogLevelWarn
  | .error => slogLevelError

/-- The pion `LogLevel` of a request level. -/
def ReqLevel.toLogLevel : ReqLevel → LogLevel
  | .trace => LogLevelTrace
  | .debug => LogLevelDebug
  | .info => LogLevelInfo
  | .warn => LogLevelWarn
  | .error => LogLevelError

/-- The uppercase display name of a request level, as the spec's JSON
structural law states it. -/
def ReqLevel.upperName : ReqLevel → String
  | .trace => "TRACE"
  | .debug => "DEBUG"
  | .info => "INFO"
  | .warn => "WARN"
  | .error => "ERROR"

/-! ## Go values

Scalar values passed as variadic `any` arguments (structured key/value
pairs) and rendered by the JSON handler. -/

inductive GoVal where
  | str (s : String)
  | int (n : Int)
  | bool (b : Bool)
  deriving DecidableEq, Repr

/-- An `fmt.Sprintf`-style formatter: the host formatter is external, so
the embedding quantifies over its behavior. -/
abbrev Sprintf := String → List GoVal → String

/-! ## Output destinations

An `io.Writer` reference is modelled by which destination it denotes; a
Go `nil` writer is `Option.none`. -/

inductive Dest where
  | stdout
  | stderr
  | custom (id : Nat)
  deriving DecidableEq, Repr

/-! ## The JSON leveled logger (json_logger.go, current `jsonLeveledLogger`)

The logger owns a level, a scope, and a `loggerWriter` indirection whose
target is the destination; `newJSONLeveledLoggerForScope` coerces a nil
writer to standard error. -/

structure JsonLeveledLogger where
  level : LogLevel
  scope : String
  dest : Dest
  deriving DecidableEq, Repr

/-- `newJSONLeveledLoggerForScope` from json_logger.go: nil writer is
replaced by `os.Stderr`; the logger stores level, scope and the writer
indirection. -/
def newJSONLeveledLoggerForScope (scope : String) (level : LogLevel)
    (writer : Option Dest) : JsonLeveledLogger :=
  { level := level, scope := scope, dest := writer.getD Dest.stderr }

/-- `jsonLeveledLogger.WithOutput` from json_logger.go: a nil output is
replaced by `os.Stderr`; the writer indirection's target is updated. -/
def jsonWithOutput (jl : JsonLeveledLogger) (output : Option Dest) :
    JsonLeveledLogger :=
  { jl with dest := output.getD Dest.stderr }

/-- `jsonLeveledLogger.SetLevel` from json_logger.go. -/
def jsonSetLevel (jl : JsonLeveledLogger) (newLevel : LogLevel) :
    JsonLeveledLogger :=
  { jl with level := newLevel }

/-- The record `jsonLeveledLogger.logf` hands to `jl.logger.Log`: the
clock reading (already formatted to RFC3339 by the handler's
`ReplaceAttr`), the slog level, the message, and the raw variadic
attribute arguments. -/
structure SlogRecord where
  time : String
  level : SlogLevel
  msg : String
  attrs : List GoVal
  deriving DecidableEq, Repr

/-- `jsonLeveledLogger.logf` from json_logger.go: returns before building
anything when the logger's level is below the request level; otherwise
hands slog the message with `"scope", jl.scope` first and the caller's
extra arguments appended. -/
def jsonLogf (jl : JsonLeveledLogger) (level : SlogLevel) (msg : String)
    (args : List GoVal) (now : String) : Option SlogRecord :=
  if jl.level < logLevelToPionLevel level then
    none
  else
    some { time := now, level := level, msg := msg,
           attrs := [GoVal.str "scope", GoVal.str jl.scope] ++ args }

/-- `jsonLeveledLogger.logfWithFormatf` from json_logger.go: returns
before formatting when filtered; otherwise the message is the format
string itself when no arguments were given and its `fmt.Sprintf`
expansion otherwise, and the only attribute handed to slog is the scope
pair. -/
def jsonLogfWithFormatf (sprintf : Sprintf) (jl : JsonLeveledLogger)
    (level : SlogLevel) (format : String) (args : List GoVal)
    (now : String) : Option SlogRecord :=
  if jl.level < logLevelToPionLevel level then
    none
  else
    let msg := if args.length > 0 then sprintf format args else format
    some { time := now, level := level, msg := msg,
           attrs := [GoVal.str "scope", GoVal.str jl.scope] }

/-- Dispatch of the five preformatted operations `Trace`/`Debug`/`Info`/
`Warn`/`Error` from json_logger.go; each calls `logf` at its slog level
with no extra arguments. -/
def jsonCall (r : ReqLevel) (jl : JsonLeveledLogger) (msg : String)
    (now : String) : Option SlogRecord :=
  jsonLogf jl r.toSlog msg [] now

/-- Dispatch of the five printf-style operations `Tracef`/`Debugf`/
`Infof`/`Warnf`/`Errorf` from json_logger.go; each calls
`logfWithFormatf` at its slog level. -/
def jsonCallf (sprintf : Sprintf) (r : ReqLevel) (jl : JsonLeveledLogger)
    (format : String) (args : List GoVal) (now : String) :
    Option SlogRecord :=
  jsonLogfWithFormatf sprintf jl r.toSlog format args now

/-! ## The slog JSON handler (models Go stdlib `log/slog.NewJSONHandler`
as configured by `newJSONHandlerHelper` in json_logger.go)

The handler is configured with floor `slog.Level(-8)` (it never filters on
its own) and a `ReplaceAttr` that formats the time as an RFC3339 string
and replaces the level value by `slogLevelToSlogStringValue`.  It emits
one JSON object per record, `time`, `level`, `msg` first, then the
attribute arguments paired up, terminated by a newline. -/

/-- Minimal JSON string escaping (models `encoding/json` escaping of the
characters relevant here). -/
def jsonEscChar (c : Char) : String :=
  if c = '"' then "\\\""
  else if c = '\\' then "\\\\"
  else if c = '\n' then "\\n"
  else String.singleton c

def jsonEsc (s : String) : String :=
  s.data.foldl (fun acc c => acc ++ jsonEscChar c) ""

def jsonQuote (s : String) : String :=
  "\"" ++ jsonEsc s ++ "\""

/-- slog's pairing of variadic `any` arguments into key/value attributes:
a string followed by a value forms a pair; a lone or non-string element
becomes a `!BADKEY` attribute. -/
def pairUpArgs : List GoVal → List (String × GoVal)
  | [] => []
  | GoVal.str k :: v :: rest => (k, v) :: pairUpArgs rest
  | x :: rest => ("!BADKEY", x) :: pairUpArgs rest

/-- The key/value pairs of the emitted JSON object, in the handler's
canonical order: `time`, `level` (replaced by the uppercase string value),
`msg`, then the paired attribute arguments. -/
def handlerPairs (r : SlogRecord) : List (String × GoVal) :=
  ("time", GoVal.str r.time)
    :: ("level", GoVal.str (slogLevelToSlogStringValue r.level))
    :: ("msg", GoVal.str r.msg)
    :: pairUpArgs r.attrs

def renderGoVal : GoVal → String
  | GoVal.str s => jsonQuote s
  | GoVal.int n => toString n
  | GoVal.bool b => if b then "true" else "false"

/-- Join a list of strings with a separator. -/
def joinSep (sep : String) : List String → String
  | [] => ""
  | [x] => x
  | x :: y :: rest => x ++ sep ++ joinSep sep (y :: rest)

/-- Serialization of the JSON object: braces around comma-separated
`"key":value` members, terminated by a newline. -/
def renderJSONObject (ps : List (String × GoVal)) : String :=
  "\x7b" ++ joinSep "," (ps.map fun p => jsonQuote p.1 ++ ":" ++ renderGoVal p.2)
    ++ "\x7d\n"

/-- The bytes a (possibly filtered) JSON emission writes to the sink:
nothing when `logf` returned early, one serialized object otherwise. -/
def jsonBytes : Option SlogRecord → String
  | none => ""
  | some r => renderJSONObject (handlerPairs r)

/-! ## The text emitter (StringFormatter, NoopFormatter, Event, Logger)

`StringFormatter` accumulates `key=value` pieces in a builder and flushes
builder ++ message ++ newline on `Msg`/`Msgf`.  The observable world
tracks the bytes received by the sink and the library's diagnostic
prints; a writer's behavior maps the content offered to `Write` to an
optional error message. -/

structure TextWorld where
  sink : List String
  stdoutLines : List String
  stderrLines : List String
  deriving DecidableEq, Repr

def TextWorld.empty : TextWorld :=
  { sink := [], stdoutLines := [], stderrLines := [] }

/-- Behavior of the underlying `io.Writer`: `some e` means `Write`
returned error `e` (and retained nothing), `none` means success. -/
abbrev WriterBehavior := String → Option String

/-- The always-succeeding writer. -/
def writerOk : WriterBehavior := fun _ => none

/-- `StringFormatter.Str` from logging.go: a separating space when the
builder is nonempty, then `key=value`. -/
def stringFormatterStr (b : String) (key val : String) : String :=
  (if 0 < b.length then b ++ " " else b) ++ key ++ "=" ++ val

/-- `StringFormatter.Bool` from logging.go: delegates to `Str` with
`"true"`/`"false"`. -/
def stringFormatterBool (b : String) (key : String) (v : Bool) : String :=
  stringFormatterStr b key (if v then "true" else "false")

/-- `StringFormatter.Int` from logging.go: delegates to `Str` with the
decimal rendering. -/
def stringFormatterInt (b : String) (key : String) (i : Int) : String :=
  stringFormatterStr b key (toString i)

/-- `StringFormatter.Err` from logging.go: delegates to `Str` under the
fixed key `"error"`. -/
def stringFormatterErr (b : String) (e : String) : String :=
  stringFormatterStr b "error" e

/-- The full record content `StringFormatter.Msg` offers to the writer:
a separating space when fields were accumulated, the message, and the
trailing newline. -/
def stringFormatterMsgContent (b : String) (message : String) : String :=
  (if 0 < b.length then b ++ " " else b) ++ message ++ "\n"

/-- `StringFormatter.Msg` from logging.go: offers the finished record to
the writer; when `Write` errors the failure is reported by `fmt.Printf`
(which prints to standard output) as `"error writing log <err>\n"` and no
error reaches the caller. -/
def stringFormatterMsg (wb : WriterBehavior) (b : String) (message : String)
    (w : TextWorld) : TextWorld :=
  let content := stringFormatterMsgContent b message
  match wb content with
  | none => { w with sink := w.sink ++ [content] }
  | some e =>
      { w with stdoutLines := w.stdoutLines ++ ["error writing log " ++ e ++ "\n"] }

/-- `StringFormatter.Msgf` from logging.go: like `Msg` but the message is
always `fmt.Sprintf(format, args...)`. -/
def stringFormatterMsgf (wb : WriterBehavior) (sprintf : Sprintf)
    (b : String) (format : String) (args : List GoVal) (w : TextWorld) :
    TextWorld :=
  stringFormatterMsg wb b (sprintf format args) w

/-- The formatter inside an `Event`: `NoopFormatter` (every method a
no-op) or a `StringFormatter` with its builder state. -/
inductive EventFormatter where
  | noop
  | strf (b : String)
  deriving DecidableEq, Repr

/-- `Event.Str` (logging.go): delegates to the formatter. -/
def eventStr (e : EventFormatter) (key val : String) : EventFormatter :=
  match e with
  | .noop => .noop
  | .strf b => .strf (stringFormatterStr b key val)

/-- `Event.Msg` (logging.go): delegates to the formatter; `NoopFormatter`
writes nothing. -/
def eventMsg (wb : WriterBehavior) (e : EventFormatter) (message : String)
    (w : TextWorld) : TextWorld :=
  match e with
  | .noop => w
  | .strf b => stringFormatterMsg wb b message w

/-- `Event.Msgf` (logging.go): delegates to the formatter. -/
def eventMsgf (wb : WriterBehavior) (sprintf : Sprintf) (e : EventFormatter)
    (format : String) (args : List GoVal) (w : TextWorld) : TextWorld :=
  match e with
  | .noop => w
  | .strf b => stringFormatterMsgf wb sprintf b format args w

/-- The legacy `Logger` struct (logging.go) as built by
`NewDefaultLeveledLoggerForScope`: a level and the captured writer of its
`FormatterFactory` closure.  It retains no scope field. -/
structure DefaultTextLogger where
  lvl : LogLevel
  dest : Dest
  deriving DecidableEq, Repr

/-- `NewDefaultLeveledLoggerForScope` from logging.go: a nil writer is
replaced by `os.Stdout`; the returned `Logger` wraps a
`StringFormatter` factory over that writer and keeps the level.  The
scope argument is dropped. -/
def NewDefaultLeveledLoggerForScope (_scope : String) (level : LogLevel)
    (writer : Option Dest) : DefaultTextLogger :=
  { lvl := level, dest := writer.getD Dest.stdout }

/-- `Logger.newEvent` from logging.go: a `NoopFormatter` event when the
logger's level is below the requested level, otherwise a fresh
`StringFormatter` (empty builder). -/
def loggerNewEvent (l : DefaultTextLogger) (lvl : LogLevel) : EventFormatter :=
  if l.lvl < lvl then .noop else .strf ""

/-- The legacy preformatted operations (`Logger.Trace` .. `Logger.Error`,
logging.go): `l.<R>Lvl().Msg(msg)`. -/
def loggerMsgAt (wb : WriterBehavior) (l : DefaultTextLogger) (r : ReqLevel)
    (msg : String) (w : TextWorld) : TextWorld :=
  eventMsg wb (loggerNewEvent l r.toLogLevel) msg w

/-- The legacy printf-style operations (`Logger.Tracef` ..
`Logger.Errorf`, logging.go): `l.<R>Lvl().Msgf(format, args...)`. -/
def loggerMsgfAt (wb : WriterBehavior) (sprintf : Sprintf)
    (l : DefaultTextLogger) (r : ReqLevel) (format : String)
    (args : List GoVal) (w : TextWorld) : TextWorld :=
  eventMsgf wb sprintf (loggerNewEvent l r.toLogLevel) format args w

/-- A sequence of leveled-logger calls against a text logger. -/
inductive TextCall where
  | msg (r : ReqLevel) (m : String)
  | msgf (r : ReqLevel) (format : String) (args : List GoVal)
  deriving DecidableEq, Repr

/-- Run a sequence of calls against a text logger, threading the world. -/
def runTextCalls (wb : WriterBehavior) (sprintf : Sprintf)
    (l : DefaultTextLogger) : List TextCall → TextWorld → TextWorld
  | [], w => w
  | TextCall.msg r m :: rest, w =>
      runTextCalls wb sprintf l rest (loggerMsgAt wb l r m w)
  | TextCall.msgf r f args :: rest, w =>
      runTextCalls wb sprintf l rest (loggerMsgfAt wb sprintf l r f args w)

/-! ## Lowercasing and splitting (models Go `strings.ToLower` and
`strings.Split` for the ASCII inputs the factory handles) -/

/-- ASCII case folding of one character, as `strings.ToLower` performs on
the ASCII range (the environment values and scope names involved are
ASCII). -/
def charToLower (c : Char) : Char :=
  if 'A' ≤ c ∧ c ≤ 'Z' then Char.ofNat (c.toNat + 32) else c

/-- `strings.ToLower`, character-wise. -/
def goToLower (s : String) : String :=
  ⟨s.data.map charToLower⟩

/-- `strings.Split(s, sep)` for a one-character separator: splits at every
occurrence, keeping empty pieces; the result is never empty. -/
def splitChars (sep : Char) : List Char → List (List Char)
  | [] => [[]]
  | c :: rest =>
      match splitChars sep rest with
      | [] => [[]]
      | g :: gs => if c = sep then [] :: g :: gs else (c :: g) :: gs

/-- The scope names an environment value yields:
`strings.Split(strings.ToLower(env), ",")`. -/
def envScopes (env : String) : List String :=
  (splitChars ',' (goToLower env).data).map fun cs => ⟨cs⟩

/-! ## Factory configuration and environment resolution

Both factories (JSON and text) run the same loop over the six level-name
variables; they differ only in the `"all"` branch: the JSON factory
raises the default (`if factory.defaultLogLevel < level`), the text
`NewDefaultLoggerFactory` assigns it unconditionally.  Go iterates the
`logLevels` map in unspecified order, so the resolvers take the iteration
order as an explicit list. -/

structure FactoryConfig where
  defaultLogLevel : LogLevel
  scopeLevels : List (String × LogLevel)
  deriving DecidableEq, Repr

/-- Go map lookup on the association-list model: first match wins (inserts
cons to the front, so the most recent assignment is found). -/
def scopeLookup : List (String × LogLevel) → String → Option LogLevel
  | [], _ => none
  | (k, v) :: rest, scope => if k = scope then some v else scopeLookup rest scope

/-- The six level-name variables, with the levels the source maps them
to. -/
def logLevelPairs : List (String × LogLevel) :=
  [("DISABLE", LogLevelDisabled), ("ERROR", LogLevelError),
   ("WARN", LogLevelWarn), ("INFO", LogLevelInfo),
   ("DEBUG", LogLevelDebug), ("TRACE", LogLevelTrace)]

/-- The environment read for one level name: `PION_LOG_<NAME>`, falling
back to `PIONS_LOG_<NAME>` only when the first is empty. -/
def envLookup (getenv : String → String) (name : String) : String :=
  let env := getenv ("PION_LOG_" ++ name)
  if env = "" then getenv ("PIONS_LOG_" ++ name) else env

/-- One iteration of the factory environment loop for the variable
`nl.1` naming level `nl.2`.  `raiseOnly = true` is the JSON factory's
`"all"` branch (`if factory.defaultLogLevel < level`), `raiseOnly = false`
is `NewDefaultLoggerFactory`'s unconditional assignment. -/
def resolveStep (raiseOnly : Bool) (getenv : String → String)
    (cfg : FactoryConfig) (nl : String × LogLevel) : FactoryConfig :=
  let env := envLookup getenv nl.1
  if env = "" then cfg
  else if goToLower env = "all" then
    if raiseOnly then
      if cfg.defaultLogLevel < nl.2 then { cfg with defaultLogLevel := nl.2 }
      else cfg
    else { cfg with defaultLogLevel := nl.2 }
  else
    { cfg with
      scopeLevels :=
        (envScopes env).foldl (fun m scope => (scope, nl.2) :: m) cfg.scopeLevels }

/-- Both factories start from default level `Error`, an empty scope map
and the standard-error writer. -/
def initialFactoryConfig : FactoryConfig :=
  { defaultLogLevel := LogLevelError, scopeLevels := [] }

/-- `newJSONLoggerFactory` from json_logger.go (environment resolution
part), iterating the level-name map in the given order. -/
def newJSONLoggerFactoryEnv (getenv : String → String)
    (order : List (String × LogLevel)) : FactoryConfig :=
  order.foldl (resolveStep true getenv) initialFactoryConfig

/-- `NewDefaultLoggerFactory` from logging.go (environment resolution
part), iterating the level-name map in the given order. -/
def NewDefaultLoggerFactoryEnv (getenv : String → String)
    (order : List (String × LogLevel)) : FactoryConfig :=
  order.foldl (resolveStep false getenv) initialFactoryConfig

/-- `WithJSONScopeLevels` from json_logger.go: a nil map is a no-op;
otherwise every given key is lowercased and assigned into the factory's
scope map. -/
def WithJSONScopeLevelsModel (levels : Option (List (String × LogLevel)))
    (cfg : FactoryConfig) : FactoryConfig :=
  match levels with
  | none => cfg
  | some ls =>
      { cfg with
        scopeLevels := ls.foldl (fun m p => (goToLower p.1, p.2) :: m) cfg.scopeLevels }

/-- The level `NewLogger(scope)` resolves (identical in
`jsonLoggerFactory.NewLogger` and `DefaultLoggerFactory.NewLogger`): the
scope-override level when the map contains `scope` as an exact,
case-sensitive key, the factory default otherwise. -/
def factoryNewLoggerLevel (cfg : FactoryConfig) (scope : String) : LogLevel :=
  match scopeLookup cfg.scopeLevels scope with
  | some scopeLevel => scopeLevel
  | none => cfg.defaultLogLevel

/-- The result of an environment step for the factory default level:
`some l` exactly when the (fallback-resolved) value for this variable is
nonempty and case-insensitively `"all"`. -/
def allMatch (getenv : String → String) (nl : String × LogLevel) :
    Option LogLevel :=
  let env := envLookup getenv nl.1
  if env = "" then none
  else if goToLower env = "all" then some nl.2 else none

/-- All keys of a factory's scope map are fixed points of lowercasing. -/
def LowercaseKeys (cfg : FactoryConfig) : Prop :=
  ∀ p ∈ cfg.scopeLevels, goToLower p.1 = p.1

/-- Environment with only `PION_LOG_DISABLE=all` set. -/
def getenvDisableAll : String → String :=
  fun k => if k = "PION_LOG_DISABLE" then "all" else ""

/-- Environment with `PION_LOG_INFO` empty and `PIONS_LOG_INFO=all`. -/
def getenvFallbackInfo : String → String :=
  fun k => if k = "PIONS_LOG_INFO" then "all" else ""

/-- Environment with `PION_LOG_INFO=All`, `PION_LOG_DEBUG=ALL`,
`PION_LOG_TRACE=all`. -/
def getenvAllThree : String → String :=
  fun k =>
    if k = "PION_LOG_INFO" then "All"
    else if k = "PION_LOG_DEBUG" then "ALL"
    else if k = "PION_LOG_TRACE" then "all"
    else ""

/-- A writer whose `Write` always fails with error message `"boom"`. -/
def writerBoom : WriterBehavior := fun _ => some "boom"

/-- The content a text record built from `Str` fields followed by
`Msg(message)` offers to the sink. -/
def stringFormatterRecord (fields : List (String × String))
    (message : String) : String :=
  stringFormatterMsgContent
    (fields.foldl (fun b p => stringFormatterStr b p.1 p.2) "") message

/-! ## Supporting lemmas -/

theorem toNat_charOfNat_of_valid (n : Nat) (h : n.isValidChar) :
    (Char.ofNat n).toNat = n := by
  rw [Char.ofNat, dif_pos h]
  rfl

theorem charLe_iff (a b : Char) : a ≤ b ↔ a.toNat ≤ b.toNat := by
  rw [Char.le_def, UInt32.le_def, BitVec.le_def]
  exact Iff.rfl

theorem charToLower_idem (c : Char) :
    charToLower (charToLower c) = charToLower c := by
  unfold charToLower
  by_cases h : 'A' ≤ c ∧ c ≤ 'Z'
  · rw [if_pos h]
    have h65 : 65 ≤ c.toNat := (charLe_iff 'A' c).mp h.1
    have h90 : c.toNat ≤ 90 := (charLe_iff c 'Z').mp h.2
    have hv : (c.toNat + 32).isValidChar := by
      left
      omega
    have htn : (Char.ofNat (c.toNat + 32)).toNat = c.toNat + 32 :=
      toNat_charOfNat_of_valid _ hv
    rw [if_neg]
    intro hcon
    have hz : ('Z').toNat = 90 := rfl
    have hle := (charLe_iff (Char.ofNat (c.toNat + 32)) 'Z').mp hcon.2
    rw [htn, hz] at hle
    omega
  · rw [if_neg h, if_neg h]

theorem goToLower_data (s : String) :
    (goToLower s).data = s.data.map charToLower := rfl

theorem goToLower_fixed_of_mem (s : String)
    (h : ∀ c ∈ s.data, charToLower c = c) : goToLower s = s := by
  unfold goToLower
  cases s with
  | mk data =>
      exact congrArg String.mk
        ((List.map_congr_left h).trans (List.map_id data))

theorem goToLower_idem (s : String) :
    goToLower (goToLower s) = goToLower s := by
  apply goToLower_fixed_of_mem
  intro c hc
  rw [goToLower_data] at hc
  obtain ⟨d, _, rfl⟩ := List.mem_map.mp hc
  exact charToLower_idem d

theorem splitChars_mem_subset (sep : Char) :
    ∀ (l : List Char), ∀ g ∈ splitChars sep l, ∀ c ∈ g, c ∈ l := by
  intro l
  induction l with
  | nil =>
      intro g hg c hc
      simp only [splitChars, List.mem_singleton] at hg
      subst hg
      exact absurd hc (List.not_mem_nil c)
  | cons x rest ih =>
      intro g hg c hc
      rw [splitChars] at hg
      rcases hrec : splitChars sep rest with _ | ⟨g0, gs⟩
      · rw [hrec] at hg
        simp only [List.mem_singleton] at hg
        subst hg
        exact absurd hc (List.not_mem_nil c)
      · rw [hrec] at hg
        dsimp only at hg
        by_cases hx : x = sep
        · rw [if_pos hx] at hg
          rcases List.mem_cons.mp hg with hg | hg
          · subst hg
            exact absurd hc (List.not_mem_nil c)
          · exact List.mem_cons_of_mem x (ih g (hrec ▸ hg) c hc)
        · rw [if_neg hx] at hg
          rcases List.mem_cons.mp hg with hg | hg
          · subst hg
            rcases List.mem_cons.mp hc with hc | hc
            · subst hc
              exact List.mem_cons_self c rest
            · exact List.mem_cons_of_mem x
                (ih g0 (hrec ▸ List.mem_cons_self g0 gs) c hc)
          · exact List.mem_cons_of_mem x
              (ih g (hrec ▸ List.mem_cons_of_mem g0 hg) c hc)

theorem envScopes_lower_fixed (env : String) :
    ∀ s ∈ envScopes env, goToLower s = s := by
  intro s hs
  unfold envScopes at hs
  obtain ⟨cs, hcs, rfl⟩ := List.mem_map.mp hs
  apply goToLower_fixed_of_mem
  intro c hc
  have hmem : c ∈ (goToLower env).data :=
    splitChars_mem_subset ',' (goToLower env).data cs hcs c hc
  rw [goToLower_data] at hmem
  obtain ⟨d, _, rfl⟩ := List.mem_map.mp hmem
  exact charToLower_idem d

theorem scopeLookup_some_mem :
    ∀ (m : List (String × LogLevel)) (k : String) (v : LogLevel),
      scopeLookup m k = some v → (k, v) ∈ m := by
  intro m
  induction m with
  | nil =>
      intro k v h
      simp [scopeLookup] at h
  | cons p rest ih =>
      intro k v h
      rw [scopeLookup] at h
      by_cases hk : p.1 = k
      · rw [if_pos hk] at h
        have : p = (k, v) := by
          cases p
          cases h
          cases hk
          rfl
        rw [this] at *
        exact List.mem_cons_self _ _
      · rw [if_neg hk] at h
        exact List.mem_cons_of_mem p (ih k v h)

theorem resolveStep_lowercaseKeys (raiseOnly : Bool) (getenv : String → String)
    (cfg : FactoryConfig) (nl : String × LogLevel) (h : LowercaseKeys cfg) :
    LowercaseKeys (resolveStep raiseOnly getenv cfg nl) := by
  unfold resolveStep
  by_cases h0 : envLookup getenv nl.1 = ""
  · rw [if_pos h0]
    exact h
  · rw [if_neg h0]
    by_cases h1 : goToLower (envLookup getenv nl.1) = "all"
    · rw [if_pos h1]
      cases raiseOnly
      · exact h
      · by_cases h2 : cfg.defaultLogLevel < nl.2
        · simp only [if_pos h2]
          exact h
        · simp only [if_neg h2]
          exact h
    · rw [if_neg h1]
      intro p hp
      have key : ∀ (scopes : List String) (m : List (String × LogLevel)),
          (∀ q ∈ m, goToLower q.1 = q.1) →
          (∀ s ∈ scopes, goToLower s = s) →
          ∀ q ∈ scopes.foldl (fun m scope => (scope, nl.2) :: m) m,
            goToLower q.1 = q.1 := by
        intro scopes
        induction scopes with
        | nil =>
            intro m hm _ q hq
            exact hm q hq
        | cons s rest ihs =>
            intro m hm hs q hq
            simp only [List.foldl_cons] at hq
            refine ihs ((s, nl.2) :: m) ?_ (fun t ht => hs t (List.mem_cons_of_mem s ht)) q hq
            intro t ht
            rcases List.mem_cons.mp ht with ht | ht
            · subst ht
              exact hs s (List.mem_cons_self s rest)
            · exact hm t ht
      exact key (envScopes (envLookup getenv nl.1)) cfg.scopeLevels h
        (envScopes_lower_fixed _) p hp

theorem foldl_resolveStep_lowercaseKeys (raiseOnly : Bool)
    (getenv : String → String) :
    ∀ (order : List (String × LogLevel)) (cfg : FactoryConfig),
      LowercaseKeys cfg →
      LowercaseKeys (order.foldl (resolveStep raiseOnly getenv) cfg) := by
  intro order
  induction order with
  | nil =>
      intro cfg h
      exact h
  | cons nl rest ih =>
      intro cfg h
      simp only [List.foldl_cons]
      exact ih _ (resolveStep_lowercaseKeys raiseOnly getenv cfg nl h)

theorem newJSONLoggerFactoryEnv_lowercaseKeys (getenv : String → String)
    (order : List (String × LogLevel)) :
    LowercaseKeys (newJSONLoggerFactoryEnv getenv order) :=
  foldl_resolveStep_lowercaseKeys true getenv order initialFactoryConfig
    (by intro p hp; simp [initialFactoryConfig] at hp)

theorem NewDefaultLoggerFactoryEnv_lowercaseKeys (getenv : String → String)
    (order : List (String × LogLevel)) :
    LowercaseKeys (NewDefaultLoggerFactoryEnv getenv order) :=
  foldl_resolveStep_lowercaseKeys false getenv order initialFactoryConfig
    (by intro p hp; simp [initialFactoryConfig] at hp)

theorem withJSONScopeLevels_lowercaseKeys
    (levels : Option (List (String × LogLevel))) (cfg : FactoryConfig)
    (h : LowercaseKeys cfg) :
    LowercaseKeys (WithJSONScopeLevelsModel levels cfg) := by
  unfold WithJSONScopeLevelsModel
  cases levels with
  | none => exact h
  | some ls =>
      have key : ∀ (ls : List (String × LogLevel)) (m : List (String × LogLevel)),
          (∀ q ∈ m, goToLower q.1 = q.1) →
          ∀ q ∈ ls.foldl (fun m p => (goToLower p.1, p.2) :: m) m,
            goToLower q.1 = q.1 := by
        intro ls
        induction ls with
        | nil =>
            intro m hm q hq
            exact hm q hq
        | cons p rest ihs =>
            intro m hm q hq
            simp only [List.foldl_cons] at hq
            refine ihs ((goToLower p.1, p.2) :: m) ?_ q hq
            intro t ht
            rcases List.mem_cons.mp ht with ht | ht
            · subst ht
              exact goToLower_idem p.1
            · exact hm t ht
      exact key ls cfg.scopeLevels h

/-- A scope that is not a fixed point of lowercasing cannot be a key of a
lowercased map, so `NewLogger` resolves it to the factory default. -/
theorem factoryNewLoggerLevel_of_mixedCase (cfg : FactoryConfig)
    (scope : String) (hkeys : LowercaseKeys cfg)
    (hscope : goToLower scope ≠ scope) :
    factoryNewLoggerLevel cfg scope = cfg.defaultLogLevel := by
  unfold factoryNewLoggerLevel
  rcases hl : scopeLookup cfg.scopeLevels scope with _ | v
  · rfl
  · exact absurd (hkeys (scope, v) (scopeLookup_some_mem _ _ _ hl)) hscope

theorem ite_lt_eq_max (d l : LogLevel) :
    (if d < l then l else d) = max d l := by
  rcases le_or_lt l d with h | h
  · rw [if_neg (not_lt.mpr h), max_eq_left h]
  · rw [if_pos h, max_eq_right h.le]

theorem resolveStep_defaultLogLevel_true (getenv : String → String)
    (cfg : FactoryConfig) (nl : String × LogLevel) :
    (resolveStep true getenv cfg nl).defaultLogLevel =
      match allMatch getenv nl with
      | some l => max cfg.defaultLogLevel l
      | none => cfg.defaultLogLevel := by
  unfold resolveStep allMatch
  by_cases h0 : envLookup getenv nl.1 = ""
  · rw [if_pos h0]
    simp only [if_pos h0]
  · rw [if_neg h0]
    simp only [if_neg h0]
    by_cases h1 : goToLower (envLookup getenv nl.1) = "all"
    · simp only [if_pos h1]
      rw [← ite_lt_eq_max]
      by_cases h2 : cfg.defaultLogLevel < nl.2
      · simp [if_pos h2]
      · simp [if_neg h2]
    · simp only [if_neg h1]

theorem foldl_resolveStep_defaultLogLevel (getenv : String → String) :
    ∀ (order : List (String × LogLevel)) (cfg : FactoryConfig),
      (order.foldl (resolveStep true getenv) cfg).defaultLogLevel =
        (order.filterMap (allMatch getenv)).foldl max cfg.defaultLogLevel := by
  intro order
  induction order with
  | nil =>
      intro cfg
      rfl
  | cons nl rest ih =>
      intro cfg
      simp only [List.foldl_cons, List.filterMap_cons]
      rcases hm : allMatch getenv nl with _ | l
      · dsimp only
        rw [ih, resolveStep_defaultLogLevel_true, hm]
      · dsimp only
        rw [ih, resolveStep_defaultLogLevel_true, hm]
        simp only [List.foldl_cons]

theorem le_foldl_max (l : List LogLevel) :
    ∀ b : LogLevel, b ≤ l.foldl max b := by
  induction l with
  | nil =>
      intro b
      exact le_refl b
  | cons x rest ih =>
      intro b
      simp only [List.foldl_cons]
      exact le_trans (le_max_left b x) (ih (max b x))

theorem foldl_max_perm {l1 l2 : List LogLevel} (h : l1.Perm l2) :
    ∀ b : LogLevel, l1.foldl max b = l2.foldl max b := by
  induction h with
  | nil =>
      intro b
      rfl
  | cons x _ ih =>
      intro b
      simp only [List.foldl_cons]
      exact ih (max b x)
  | swap x y l =>
      intro b
      simp only [List.foldl_cons]
      rw [sup_assoc, sup_comm y x, ← sup_assoc]
  | trans _ _ ih1 ih2 =>
      intro b
      exact (ih1 b).trans (ih2 b)

theorem logLevelToPionLevel_toSlog (r : ReqLevel) :
    logLevelToPionLevel r.toSlog = r.toLogLevel := by
  cases r <;> rfl

theorem slogLevelToSlogStringValue_toSlog (r : ReqLevel) :
    slogLevelToSlogStringValue r.toSlog = r.upperName := by
  cases r <;> rfl

theorem eq_sign_length : ("=" : String).length = 1 := rfl

theorem space_length : (" " : String).length = 1 := rfl

theorem concat_eq_length_pos (a b : String) : 0 < (a ++ "=" ++ b).length := by
  rw [String.length_append, String.length_append, eq_sign_length]
  omega

theorem stringFormatterStr_length_pos (b k v : String) :
    0 < (stringFormatterStr b k v).length := by
  unfold stringFormatterStr
  rw [String.length_append, String.length_append, eq_sign_length]
  omega

theorem joinSep_cons_append (a s : String) (l : List String) :
    joinSep " " ((a ++ " " ++ s) :: l) = a ++ " " ++ joinSep " " (s :: l) := by
  cases l with
  | nil => rfl
  | cons y r =>
      show (a ++ " " ++ s) ++ " " ++ joinSep " " (y :: r)
          = a ++ " " ++ (s ++ " " ++ joinSep " " (y :: r))
      simp [String.append_assoc]

theorem foldPairs_eq_joinSep :
    ∀ (fields : List (String × String)) (x : String),
      fields.foldl (fun acc p => acc ++ " " ++ p.1 ++ "=" ++ p.2) x
        = joinSep " " (x :: fields.map (fun p => p.1 ++ "=" ++ p.2)) := by
  intro fields
  induction fields with
  | nil =>
      intro x
      rfl
  | cons p rest ih =>
      intro x
      simp only [List.foldl_cons, List.map_cons]
      rw [ih]
      have hassoc : x ++ " " ++ p.1 ++ "=" ++ p.2
          = x ++ " " ++ (p.1 ++ "=" ++ p.2) := by
        simp [String.append_assoc]
      rw [hassoc, joinSep_cons_append]
      rfl

theorem foldStr_eq_foldPairs :
    ∀ (fields : List (String × String)) (b : String), 0 < b.length →
      fields.foldl (fun b p => stringFormatterStr b p.1 p.2) b
        = fields.foldl (fun acc p => acc ++ " " ++ p.1 ++ "=" ++ p.2) b := by
  intro fields
  induction fields with
  | nil =>
      intro b _
      rfl
  | cons p rest ih =>
      intro b hb
      simp only [List.foldl_cons]
      rw [show stringFormatterStr b p.1 p.2 = b ++ " " ++ p.1 ++ "=" ++ p.2 by
        unfold stringFormatterStr
        rw [if_pos hb]]
      refine ih _ ?_
      rw [String.length_append, String.length_append, String.length_append,
        eq_sign_length]
      omega

theorem length_le_joinSep_cons :
    ∀ (l : List String) (x : String),
      x.length ≤ (joinSep " " (x :: l)).length := by
  intro l
  induction l with
  | nil =>
      intro x
      exact le_refl _
  | cons y r _ =>
      intro x
      show x.length ≤ (x ++ " " ++ joinSep " " (y :: r)).length
      rw [String.length_append, String.length_append]
      omega

theorem joinSep_append_singleton :
    ∀ (l : List String) (x m : String),
      joinSep " " (x :: (l ++ [m])) = joinSep " " (x :: l) ++ " " ++ m := by
  intro l
  induction l with
  | nil =>
      intro x m
      rfl
  | cons y r ih =>
      intro x m
      show x ++ " " ++ joinSep " " (y :: (r ++ [m]))
          = (x ++ " " ++ joinSep " " (y :: r)) ++ " " ++ m
      rw [ih y m]
      simp [String.append_assoc]

/-- The record a `Str`-field chain followed by `Msg` produces, in closed
form: fields and message joined by single spaces, one trailing newline. -/
theorem stringFormatterRecord_closed (fields : List (String × String))
    (message : String) :
    stringFormatterRecord fields message
      = joinSep " " (fields.map (fun p => p.1 ++ "=" ++ p.2) ++ [message])
          ++ "\n" := by
  unfold stringFormatterRecord stringFormatterMsgContent
  cases fields with
  | nil =>
      simp [joinSep]
  | cons p rest =>
      simp only [List.foldl_cons, List.map_cons, List.cons_append]
      have h0 : stringFormatterStr "" p.1 p.2 = p.1 ++ "=" ++ p.2 := by
        unfold stringFormatterStr
        simp
      rw [h0]
      have hpos : 0 < (p.1 ++ "=" ++ p.2).length := concat_eq_length_pos p.1 p.2
      rw [foldStr_eq_foldPairs rest _ hpos, foldPairs_eq_joinSep]
      have hpos2 : 0 < (joinSep " " ((p.1 ++ "=" ++ p.2) ::
          rest.map (fun p => p.1 ++ "=" ++ p.2))).length := by
        calc 0 < (p.1 ++ "=" ++ p.2).length := hpos
          _ ≤ _ := length_le_joinSep_cons _ _
      rw [if_pos hpos2, joinSep_append_singleton]

theorem eventStr_foldl (fields : List (String × String)) :
    ∀ b : String,
      fields.foldl (fun e p => eventStr e p.1 p.2) (EventFormatter.strf b)
        = EventFormatter.strf
            (fields.foldl (fun b p => stringFormatterStr b p.1 p.2) b) := by
  induction fields with
  | nil =>
      intro b
      rfl
  | cons p rest ih =>
      intro b
      simp only [List.foldl_cons]
      exact ih (stringFormatterStr b p.1 p.2)

/-! ## Claims -/

/-- C7: a text-emitter record built from `Str` fields `(k1,v1)...(kn,vn)`
followed by `Msg(message)` writes exactly
`"k1=v1 k2=v2 ... kn=vn message\n"` to the sink: fields rendered
`key=value`, single spaces between consecutive fields and before the
message, no leading separator, exactly one trailing newline; with no
fields the record is `"message\n"`. -/
theorem claim_C7_text_record_format (fields : List (String × String))
    (message : String) (w : TextWorld) :
    stringFormatterRecord fields message
      = joinSep " " (fields.map (fun p => p.1 ++ "=" ++ p.2) ++ [message])
          ++ "\n"
    ∧ (eventMsg writerOk
          (fields.foldl (fun e p => eventStr e p.1 p.2) (EventFormatter.strf ""))
          message w).sink
        = w.sink ++
            [joinSep " " (fields.map (fun p => p.1 ++ "=" ++ p.2) ++ [message])
              ++ "\n"]
    ∧ stringFormatterRecord [] message = message ++ "\n" := by
  refine ⟨stringFormatterRecord_closed fields message, ?_, rfl⟩
  rw [eventStr_foldl]
  show (stringFormatterMsg writerOk _ message w).sink = _
  unfold stringFormatterMsg
  show (TextWorld.sink { w with sink := w.sink ++ [_] }) = _
  rw [show stringFormatterMsgContent
        (fields.foldl (fun b p => stringFormatterStr b p.1 p.2) "") message
      = stringFormatterRecord fields message from rfl]
  rw [stringFormatterRecord_closed]

/-- C6 counterexample: `NewDefaultLeveledLoggerForScope` with a nil
writer coerces the destination to standard output, not standard error. -/
theorem claim_C6_counterexample :
    (NewDefaultLeveledLoggerForScope "x" LogLevelWarn none).dest = Dest.stdout
    ∧ Dest.stdout ≠ Dest.stderr :=
  ⟨rfl, by decide⟩

/-- C6 (amended): `newJSONLeveledLoggerForScope` with a nil writer and
`WithOutput` with a nil argument coerce to standard error, while
`NewDefaultLeveledLoggerForScope` with a nil writer coerces to standard
output. -/
theorem claim_C6_nil_writer_coercion (scope : String) (level : LogLevel)
    (jl : JsonLeveledLogger) :
    (newJSONLeveledLoggerForScope scope level none).dest = Dest.stderr
    ∧ (jsonWithOutput jl none).dest = Dest.stderr
    ∧ (NewDefaultLeveledLoggerForScope scope level none).dest = Dest.stdout :=
  ⟨rfl, rfl, rfl⟩

/-- C10: the text logger's behavior is independent of the scope argument:
for any two scopes, the loggers built by `NewDefaultLeveledLoggerForScope`
are equal and any call sequence produces identical worlds (hence
byte-identical sink output). -/
theorem claim_C10_scope_noninterference (wb : WriterBehavior)
    (sprintf : Sprintf) (s1 s2 : String) (level : LogLevel)
    (writer : Option Dest) (calls : List TextCall) (w : TextWorld) :
    NewDefaultLeveledLoggerForScope s1 level writer
      = NewDefaultLeveledLoggerForScope s2 level writer
    ∧ runTextCalls wb sprintf (NewDefaultLeveledLoggerForScope s1 level writer)
          calls w
      = runTextCalls wb sprintf (NewDefaultLeveledLoggerForScope s2 level writer)
          calls w :=
  ⟨rfl, rfl⟩

/-- C5 counterexample: with a failing writer, the diagnostic line
`"error writing log boom\n"` appears on standard output, and standard
error receives nothing — contradicting the claim that the diagnostic goes
to standard error. -/
theorem claim_C5_counterexample :
    (stringFormatterMsg writerBoom "" "hello" TextWorld.empty).stderrLines = []
    ∧ (stringFormatterMsg writerBoom "" "hello" TextWorld.empty).stdoutLines
        = ["error writing log boom\n"] :=
  ⟨rfl, rfl⟩

/-- C5 (amended): when the sink's `Write` fails during `Msg` or `Msgf`,
the emitter prints `"error writing log <err>\n"` (where `<err>` is the
write error's message) to standard output via `fmt.Printf`, leaves
standard error untouched, and returns normally; on success the record
goes to the sink and no diagnostic is printed.  No error is ever
propagated to the caller. -/
theorem claim_C5_writer_error_swallowed (wb : WriterBehavior)
    (sprintf : Sprintf) (b message format : String) (args : List GoVal)
    (w : TextWorld) (e : String) :
    (stringFormatterMsg wb b message w).stderrLines = w.stderrLines
    ∧ (wb (stringFormatterMsgContent b message) = some e →
        stringFormatterMsg wb b message w
          = { w with stdoutLines :=
                w.stdoutLines ++ ["error writing log " ++ e ++ "\n"] })
    ∧ (wb (stringFormatterMsgContent b message) = none →
        stringFormatterMsg wb b message w
          = { w with sink := w.sink ++ [stringFormatterMsgContent b message] })
    ∧ (stringFormatterMsgf wb sprintf b format args w).stderrLines
        = w.stderrLines
    ∧ (wb (stringFormatterMsgContent b (sprintf format args)) = some e →
        stringFormatterMsgf wb sprintf b format args w
          = { w with stdoutLines :=
                w.stdoutLines ++ ["error writing log " ++ e ++ "\n"] }) := by
  refine ⟨?_, ?_, ?_, ?_, ?_⟩
  · rcases h : wb (stringFormatterMsgContent b message) with _ | err <;>
      simp [stringFormatterMsg, h]
  · intro h
    simp [stringFormatterMsg, h]
  · intro h
    simp [stringFormatterMsg, h]
  · rcases h : wb (stringFormatterMsgContent b (sprintf format args)) with _ | err <;>
      simp [stringFormatterMsgf, stringFormatterMsg, h]
  · intro h
    simp [stringFormatterMsgf, stringFormatterMsg, h]

/-- C5 witness: the amended theorem evaluated on a concrete failing
writer. -/
theorem claim_C5_witness :
    stringFormatterMsg writerBoom "" "hello" TextWorld.empty
      = { TextWorld.empty with stdoutLines := ["error writing log boom\n"] } := by
  have h := (claim_C5_writer_error_swallowed writerBoom (fun f _ => f) ""
    "hello" "f" [] TextWorld.empty "boom").2.1 rfl
  simpa using h

/-- C2 counterexample: in `NewDefaultLoggerFactory`'s environment
resolution the `"all"` branch assigns the named level unconditionally, so
`PION_LOG_DISABLE=all` lowers the factory default from `Error` to
`Disabled` — contradicting the claim that the default is never lowered
and stays at `Error`. -/
theorem claim_C2_counterexample :
    (NewDefaultLoggerFactoryEnv getenvDisableAll logLevelPairs).defaultLogLevel
      = LogLevelDisabled
    ∧ LogLevelDisabled ≠ LogLevelError :=
  ⟨rfl, by decide⟩

/-- C2 (amended): in the JSON factory's environment resolution every
`"all"` variable raises the default to `max(current, named)` and never
lowers it (so `PION_LOG_DISABLE=all` leaves `Error`, and several `"all"`
variables yield the maximum of the named levels regardless of processing
order); the text `NewDefaultLoggerFactory`, by contrast, assigns the
named level unconditionally, so `PION_LOG_DISABLE=all` lowers its default
to `Disabled`. -/
theorem claim_C2_all_raises_default (getenv : String → String)
    (o1 o2 : List (String × LogLevel)) (h : o1.Perm o2) :
    (newJSONLoggerFactoryEnv getenv o1).defaultLogLevel
      = (newJSONLoggerFactoryEnv getenv o2).defaultLogLevel
    ∧ LogLevelError ≤ (newJSONLoggerFactoryEnv getenv o1).defaultLogLevel
    ∧ (newJSONLoggerFactoryEnv getenv o1).defaultLogLevel
        = (o1.filterMap (allMatch getenv)).foldl max LogLevelError
    ∧ (newJSONLoggerFactoryEnv getenvDisableAll logLevelPairs).defaultLogLevel
        = LogLevelError
    ∧ (NewDefaultLoggerFactoryEnv getenvDisableAll logLevelPairs).defaultLogLevel
        = LogLevelDisabled := by
  refine ⟨?_, ?_, ?_, rfl, rfl⟩
  · unfold newJSONLoggerFactoryEnv
    rw [foldl_resolveStep_defaultLogLevel, foldl_resolveStep_defaultLogLevel]
    exact foldl_max_perm (List.Perm.filterMap _ h) _
  · unfold newJSONLoggerFactoryEnv
    rw [foldl_resolveStep_defaultLogLevel]
    exact le_foldl_max _ _
  · exact foldl_resolveStep_defaultLogLevel getenv o1 initialFactoryConfig

/-- C2 witness: the amended theorem evaluated with the three-way `"all"`
environment, where the resolved default is `Trace`. -/
theorem claim_C2_witness :
    LogLevelError
      ≤ (newJSONLoggerFactoryEnv getenvAllThree logLevelPairs).defaultLogLevel
    ∧ (newJSONLoggerFactoryEnv getenvAllThree logLevelPairs).defaultLogLevel
        = (logLevelPairs.filterMap (allMatch getenvAllThree)).foldl max
            LogLevelError
    ∧ (newJSONLoggerFactoryEnv getenvAllThree logLevelPairs).defaultLogLevel
        = LogLevelTrace :=
  ⟨(claim_C2_all_raises_default getenvAllThree logLevelPairs logLevelPairs
      (List.Perm.refl _)).2.1,
   (claim_C2_all_raises_default getenvAllThree logLevelPairs logLevelPairs
      (List.Perm.refl _)).2.2.1,
   rfl⟩

/-- C4: `NewLogger(scope)` resolves the scope-override level on an exact,
case-sensitive key match and the factory default otherwise; since every
key stored by environment resolution and by the scope-levels option is
lowercased, a scope that is not lowercase-fixed (e.g. `"Foo"`) never
finds an override and receives the default — for the JSON factory
(with options applied) and for the text factory alike. -/
theorem claim_C4_scope_resolution (getenv : String → String)
    (order : List (String × LogLevel))
    (levels : Option (List (String × LogLevel))) (scope : String)
    (cfg : FactoryConfig)
    (hcfg : cfg = WithJSONScopeLevelsModel levels
        (newJSONLoggerFactoryEnv getenv order)) :
    (∀ l, scopeLookup cfg.scopeLevels scope = some l →
        factoryNewLoggerLevel cfg scope = l)
    ∧ (scopeLookup cfg.scopeLevels scope = none →
        factoryNewLoggerLevel cfg scope = cfg.defaultLogLevel)
    ∧ (goToLower scope ≠ scope →
        factoryNewLoggerLevel cfg scope = cfg.defaultLogLevel)
    ∧ (goToLower scope ≠ scope →
        factoryNewLoggerLevel (NewDefaultLoggerFactoryEnv getenv order) scope
          = (NewDefaultLoggerFactoryEnv getenv order).defaultLogLevel) := by
  have hkeys : LowercaseKeys cfg := by
    rw [hcfg]
    exact withJSONScopeLevels_lowercaseKeys levels _
      (newJSONLoggerFactoryEnv_lowercaseKeys getenv order)
  refine ⟨?_, ?_, ?_, ?_⟩
  · intro l hl
    unfold factoryNewLoggerLevel
    rw [hl]
  · intro hl
    unfold factoryNewLoggerLevel
    rw [hl]
  · exact factoryNewLoggerLevel_of_mixedCase cfg scope hkeys
  · intro hscope
    exact factoryNewLoggerLevel_of_mixedCase _ scope
      (NewDefaultLoggerFactoryEnv_lowercaseKeys getenv order) hscope

/-- C4 witness: registering `"Foo"` through the scope-levels option
stores the key `"foo"`, so `NewLogger("Foo")` resolves the factory
default (`Error`), not the registered `Trace`. -/
theorem claim_C4_witness :
    factoryNewLoggerLevel
        (WithJSONScopeLevelsModel (some [("Foo", LogLevelTrace)])
          (newJSONLoggerFactoryEnv (fun _ => "") logLevelPairs)) "Foo"
      = LogLevelError := by
  have h := (claim_C4_scope_resolution (fun _ => "") logLevelPairs
    (some [("Foo", LogLevelTrace)]) "Foo" _ rfl).2.2.1 (by decide)
  rw [h]
  rfl

/-- C8: for each level name the factory reads `PION_LOG_<NAME>` and
consults `PIONS_LOG_<NAME>` exactly when that value is empty; with
`PION_LOG_INFO` empty and `PIONS_LOG_INFO=all` the resolved factory
default is `Info`. -/
theorem claim_C8_env_fallback (getenv : String → String) (name : String) :
    (getenv ("PION_LOG_" ++ name) = "" →
      envLookup getenv name = getenv ("PIONS_LOG_" ++ name))
    ∧ (getenv ("PION_LOG_" ++ name) ≠ "" →
      envLookup getenv name = getenv ("PION_LOG_" ++ name))
    ∧ (newJSONLoggerFactoryEnv getenvFallbackInfo logLevelPairs).defaultLogLevel
        = LogLevelInfo := by
  refine ⟨?_, ?_, rfl⟩
  · intro h
    unfold envLookup
    simp only [h, if_pos]
  · intro h
    unfold envLookup
    simp only [if_neg h]

/-- C8 witness: the fallback variable is consulted for `INFO` in the
concrete fallback environment, where it reads `"all"`. -/
theorem claim_C8_witness :
    envLookup getenvFallbackInfo "INFO" = getenvFallbackInfo "PIONS_LOG_INFO"
    ∧ getenvFallbackInfo "PIONS_LOG_INFO" = "all" :=
  ⟨(claim_C8_env_fallback getenvFallbackInfo "INFO").1 rfl, rfl⟩

/-- C9: the JSON logger's printf-style operations consume all variadic
arguments in format expansion — the emitted record's attribute list is
exactly the scope pair, with no caller-supplied key/value pairs — the
message is the format string itself when the argument list is empty and
its expansion otherwise, while the internal `logf` path is the one that
appends extra arguments after the scope pair. -/
theorem claim_C9_printf_no_structured_args (sprintf : Sprintf)
    (r : ReqLevel) (jl : JsonLeveledLogger) (format msg : String)
    (args extraArgs : List GoVal) (now : String)
    (h : r.toLogLevel ≤ jl.level) :
    (∃ rec, jsonCallf sprintf r jl format args now = some rec
      ∧ rec.attrs = [GoVal.str "scope", GoVal.str jl.scope]
      ∧ pairUpArgs rec.attrs = [("scope", GoVal.str jl.scope)]
      ∧ rec.msg = (if args.length > 0 then sprintf format args else format))
    ∧ (args = [] →
        ∃ rec, jsonCallf sprintf r jl format args now = some rec
          ∧ rec.msg = format)
    ∧ (∃ rec, jsonLogf jl r.toSlog msg extraArgs now = some rec
      ∧ rec.attrs = [GoVal.str "scope", GoVal.str jl.scope] ++ extraArgs) := by
  have hnot : ¬ jl.level < logLevelToPionLevel r.toSlog := by
    rw [logLevelToPionLevel_toSlog]
    exact not_lt.mpr h
  have heqf : jsonCallf sprintf r jl format args now
      = some { time := now, level := r.toSlog,
               msg := if args.length > 0 then sprintf format args else format,
               attrs := [GoVal.str "scope", GoVal.str jl.scope] } := by
    unfold jsonCallf jsonLogfWithFormatf
    rw [if_neg hnot]
  have heql : jsonLogf jl r.toSlog msg extraArgs now
      = some { time := now, level := r.toSlog, msg := msg,
               attrs := [GoVal.str "scope", GoVal.str jl.scope] ++ extraArgs } := by
    unfold jsonLogf
    rw [if_neg hnot]
  refine ⟨⟨_, heqf, rfl, rfl, rfl⟩, ?_, ⟨_, heql, rfl⟩⟩
  intro hargs
  subst hargs
  exact ⟨_, heqf, rfl⟩

/-- C9 witness: the theorem evaluated at a concrete enabled logger. -/
theorem claim_C9_witness :
    ∃ rec, jsonCallf (fun f _ => f) ReqLevel.info
        { level := LogLevelInfo, scope := "api", dest := Dest.stderr }
        "hello" [] "t" = some rec
      ∧ rec.attrs = [GoVal.str "scope", GoVal.str "api"]
      ∧ pairUpArgs rec.attrs = [("scope", GoVal.str "api")]
      ∧ rec.msg = (if ([] : List GoVal).length > 0
          then (fun (f : String) (_ : List GoVal) => f) "hello" []
          else "hello") :=
  (claim_C9_printf_no_structured_args (fun f _ => f) ReqLevel.info
    { level := LogLevelInfo, scope := "api", dest := Dest.stderr }
    "hello" "m" [] [] "t" (by decide)).1

/-- C1: for every logger (JSON or text) and every request level, an
emission below the logger's level writes zero bytes to the sink
(preformatted and printf variants alike); at or below the logger's level
the emitted record carries the message (printf-expanded for the `f`
variants); a logger at `LogLevelDisabled` emits nothing, including at
`Error`. -/
theorem claim_C1_filter_law (r : ReqLevel) (lvl : LogLevel)
    (scope msg format now : String) (args : List GoVal) (sprintf : Sprintf)
    (d : Dest) (w : TextWorld) :
    (lvl < r.toLogLevel →
      jsonBytes (jsonCall r { level := lvl, scope := scope, dest := d } msg now)
          = ""
      ∧ jsonBytes (jsonCallf sprintf r { level := lvl, scope := scope, dest := d }
          format args now) = ""
      ∧ loggerMsgAt writerOk { lvl := lvl, dest := d } r msg w = w
      ∧ loggerMsgfAt writerOk sprintf { lvl := lvl, dest := d } r format args w
          = w)
    ∧ (r.toLogLevel ≤ lvl →
      (∃ rec, jsonCall r { level := lvl, scope := scope, dest := d } msg now
          = some rec ∧ rec.msg = msg)
      ∧ (∃ rec, jsonCallf sprintf r { level := lvl, scope := scope, dest := d }
            format args now = some rec
          ∧ rec.msg = (if args.length > 0 then sprintf format args else format))
      ∧ (loggerMsgAt writerOk { lvl := lvl, dest := d } r msg w).sink
          = w.sink ++ [msg ++ "\n"]
      ∧ (loggerMsgfAt writerOk sprintf { lvl := lvl, dest := d } r format args
            w).sink
          = w.sink ++ [sprintf format args ++ "\n"])
    ∧ (lvl = LogLevelDisabled →
      jsonBytes (jsonCall r { level := lvl, scope := scope, dest := d } msg now)
          = ""
      ∧ loggerMsgAt writerOk { lvl := lvl, dest := d } r msg w = w) := by
  have key : lvl < r.toLogLevel →
      jsonBytes (jsonCall r { level := lvl, scope := scope, dest := d } msg now)
          = ""
      ∧ jsonBytes (jsonCallf sprintf r { level := lvl, scope := scope, dest := d }
          format args now) = ""
      ∧ loggerMsgAt writerOk { lvl := lvl, dest := d } r msg w = w
      ∧ loggerMsgfAt writerOk sprintf { lvl := lvl, dest := d } r format args w
          = w := by
    intro h
    have hpion : ({ level := lvl, scope := scope, dest := d } :
        JsonLeveledLogger).level < logLevelToPionLevel r.toSlog := by
      rw [logLevelToPionLevel_toSlog]
      exact h
    have hev : loggerNewEvent { lvl := lvl, dest := d } r.toLogLevel
        = EventFormatter.noop := by
      unfold loggerNewEvent
      rw [if_pos h]
    refine ⟨?_, ?_, ?_, ?_⟩
    · unfold jsonCall jsonLogf
      rw [if_pos hpion]
      rfl
    · unfold jsonCallf jsonLogfWithFormatf
      rw [if_pos hpion]
      rfl
    · unfold loggerMsgAt
      rw [hev]
      rfl
    · unfold loggerMsgfAt
      rw [hev]
      rfl
  refine ⟨key, ?_, ?_⟩
  · intro h
    have hpion : ¬ ({ level := lvl, scope := scope, dest := d } :
        JsonLeveledLogger).level < logLevelToPionLevel r.toSlog := by
      rw [logLevelToPionLevel_toSlog]
      exact not_lt.mpr h
    have hev : loggerNewEvent { lvl := lvl, dest := d } r.toLogLevel
        = EventFormatter.strf "" := by
      unfold loggerNewEvent
      rw [if_neg (not_lt.mpr h)]
    refine ⟨?_, ?_, ?_, ?_⟩
    · have heq : jsonCall r { level := lvl, scope := scope, dest := d } msg now
          = some { time := now, level := r.toSlog, msg := msg,
                   attrs := [GoVal.str "scope", GoVal.str scope] } := by
        unfold jsonCall jsonLogf
        rw [if_neg hpion]
        rfl
      exact ⟨_, heq, rfl⟩
    · have heq : jsonCallf sprintf r { level := lvl, scope := scope, dest := d }
          format args now
          = some { time := now, level := r.toSlog,
                   msg := if args.length > 0 then sprintf format args else format,
                   attrs := [GoVal.str "scope", GoVal.str scope] } := by
        unfold jsonCallf jsonLogfWithFormatf
        rw [if_neg hpion]
      exact ⟨_, heq, rfl⟩
    · unfold loggerMsgAt
      rw [hev]
      show (stringFormatterMsg writerOk "" msg w).sink = _
      rfl
    · unfold loggerMsgfAt
      rw [hev]
      show (stringFormatterMsg writerOk "" (sprintf format args) w).sink = _
      rfl
  · intro h
    subst h
    have hlt : LogLevelDisabled < r.toLogLevel := by
      cases r <;> decide
    exact ⟨(key hlt).1, (key hlt).2.2.1⟩

/-- C1 witness: a logger at `Warn` suppresses `Debug` and emits `Warn`
with the message; a disabled logger suppresses `Error`. -/
theorem claim_C1_witness :
    jsonBytes (jsonCall ReqLevel.debug
        { level := LogLevelWarn, scope := "s", dest := Dest.stderr } "x" "t")
      = ""
    ∧ (∃ rec, jsonCall ReqLevel.warn
          { level := LogLevelWarn, scope := "s", dest := Dest.stderr } "y" "t"
        = some rec ∧ rec.msg = "y")
    ∧ loggerMsgAt writerOk { lvl := LogLevelDisabled, dest := Dest.stdout }
        ReqLevel.error "boom" TextWorld.empty = TextWorld.empty :=
  ⟨((claim_C1_filter_law ReqLevel.debug LogLevelWarn "s" "x" "f" "t" []
      (fun f _ => f) Dest.stderr TextWorld.empty).1 (by decide)).1,
   ((claim_C1_filter_law ReqLevel.warn LogLevelWarn "s" "y" "f" "t" []
      (fun f _ => f) Dest.stderr TextWorld.empty).2.1 (by decide)).1,
   ((claim_C1_filter_law ReqLevel.error LogLevelDisabled "s" "boom" "f" "t" []
      (fun f _ => f) Dest.stdout TextWorld.empty).2.2 rfl).2⟩

/-- C3: every JSON emission that passes the level check writes one
newline-terminated JSON object whose key/value pairs are exactly `time`,
`level`, `msg`, `scope` (in the handler's canonical order), where `level`
is the uppercase name of the request level, `msg` is the emitted
(preformatted or printf-expanded) message, and `scope` is the logger's
scope string verbatim. -/
theorem claim_C3_json_structural_law (r : ReqLevel) (jl : JsonLeveledLogger)
    (msg format now : String) (args : List GoVal) (sprintf : Sprintf)
    (h : r.toLogLevel ≤ jl.level) :
    (∃ rec, jsonCall r jl msg now = some rec
      ∧ handlerPairs rec
          = [("time", GoVal.str now), ("level", GoVal.str r.upperName),
             ("msg", GoVal.str msg), ("scope", GoVal.str jl.scope)]
      ∧ jsonBytes (jsonCall r jl msg now)
          = "\x7b" ++ joinSep ","
              ([("time", GoVal.str now), ("level", GoVal.str r.upperName),
                ("msg", GoVal.str msg), ("scope", GoVal.str jl.scope)].map
                (fun p => jsonQuote p.1 ++ ":" ++ renderGoVal p.2))
            ++ "\x7d\n")
    ∧ (∃ rec, jsonCallf sprintf r jl format args now = some rec
      ∧ handlerPairs rec
          = [("time", GoVal.str now), ("level", GoVal.str r.upperName),
             ("msg", GoVal.str
                (if args.length > 0 then sprintf format args else format)),
             ("scope", GoVal.str jl.scope)]) := by
  have hnot : ¬ jl.level < logLevelToPionLevel r.toSlog := by
    rw [logLevelToPionLevel_toSlog]
    exact not_lt.mpr h
  have heq : jsonCall r jl msg now
      = some { time := now, level := r.toSlog, msg := msg,
               attrs := [GoVal.str "scope", GoVal.str jl.scope] } := by
    unfold jsonCall jsonLogf
    rw [if_neg hnot]
    rfl
  have heqf : jsonCallf sprintf r jl format args now
      = some { time := now, level := r.toSlog,
               msg := if args.length > 0 then sprintf format args else format,
               attrs := [GoVal.str "scope", GoVal.str jl.scope] } := by
    unfold jsonCallf jsonLogfWithFormatf
    rw [if_neg hnot]
  have hpairs : ∀ m : String,
      handlerPairs { time := now, level := r.toSlog, msg := m,
                     attrs := [GoVal.str "scope", GoVal.str jl.scope] }
        = [("time", GoVal.str now), ("level", GoVal.str r.upperName),
           ("msg", GoVal.str m), ("scope", GoVal.str jl.scope)] := by
    intro m
    unfold handlerPairs
    rw [slogLevelToSlogStringValue_toSlog]
    rfl
  refine ⟨⟨_, heq, hpairs msg, ?_⟩, ⟨_, heqf, hpairs _⟩⟩
  rw [heq]
  show renderJSONObject (handlerPairs _) = _
  rw [hpairs msg]
  rfl

/-- C3 witness: the structural law evaluated on a concrete `Info`
emission. -/
theorem claim_C3_witness :
    ∃ rec, jsonCall ReqLevel.info
        { level := LogLevelInfo, scope := "test-scope", dest := Dest.stderr }
        "test message" "T" = some rec
      ∧ handlerPairs rec
          = [("time", GoVal.str "T"), ("level", GoVal.str "INFO"),
             ("msg", GoVal.str "test message"),
             ("scope", GoVal.str "test-scope")] := by
  obtain ⟨rec, h1, h2, _⟩ := (claim_C3_json_structural_law ReqLevel.info
    { level := LogLevelInfo, scope := "test-scope", dest := Dest.stderr }
    "test message" "f" "T" [] (fun f _ => f) (by decide)).1
  exact ⟨rec, h1, h2⟩

end PionLogging
